import Mathlib

/-
Verification of the PIN-derived encryption and brute-force-protected vault
store of the calculator/secret-vault application.

Shallow embedding conventions:
- Bytes are `Nat` values with explicit `< 256` bounds where relevant.
- Wall-clock time is measured in whole seconds (`Nat`); the source works in
  milliseconds (`Date.now()`), and every duration it uses is a whole number
  of seconds, so the translation scales by 1000.
- The Web Crypto primitives (`crypto.subtle` PBKDF2 key derivation and
  AES-GCM), which are platform externals and not repository code, are
  modelled as explicit function parameters (`kdf`, `gcmEncrypt`,
  `gcmDecrypt`); randomness (`crypto.getRandomValues`) is modelled by
  passing the sampled values (salts, nonces, byte streams, fresh ids) as
  explicit arguments.
- IndexedDB object stores are modelled as in-memory lists of records with
  `put` as atomic create-or-replace keyed on the key path of each store.
-/

namespace VaultCore

/- Base64 (lib/encryption.ts: arrayBufferToBase64 / base64ToArrayBuffer)

`arrayBufferToBase64` turns the byte buffer into a binary string and applies
`btoa`; `base64ToArrayBuffer` applies `atob` and reads char codes back.  We
model the composition directly as standard base64 on byte lists. -/

def b64Alphabet : List Char :=
  "ABCDEFGHIJKLMNOPQRSTUVWXYZabcdefghijklmnopqrstuvwxyz0123456789+/".toList

def sextetChar (n : Nat) : Char := b64Alphabet.getD n 'A'

def charSextet (c : Char) : Option Nat :=
  let i := b64Alphabet.indexOf c
  if i < 64 then some i else none

def encodeChunks : List Nat → List Char
  | [] => []
  | [x] => [sextetChar (x / 4), sextetChar (x % 4 * 16), '=', '=']
  | [x, y] => [sextetChar (x / 4), sextetChar (x % 4 * 16 + y / 16), sextetChar (y % 16 * 4), '=']
  | x :: y :: z :: rest =>
      sextetChar (x / 4) :: sextetChar (x % 4 * 16 + y / 16) ::
        sextetChar (y % 16 * 4 + z / 64) :: sextetChar (z % 64) :: encodeChunks rest

def decodeChunks : List Char → Option (List Nat)
  | [] => some []
  | a :: b :: c :: d :: rest =>
    match charSextet a, charSextet b with
    | some sa, some sb =>
      if c = '=' then
        if d = '=' ∧ rest = [] then some [sa * 4 + sb / 16] else none
      else
        match charSextet c with
        | some sc =>
          if d = '=' then
            if rest = [] then some [sa * 4 + sb / 16, sb % 16 * 16 + sc / 4] else none
          else
            match charSextet d with
            | some sd =>
              match decodeChunks rest with
              | some t => some ((sa * 4 + sb / 16) :: (sb % 16 * 16 + sc / 4) :: (sc % 4 * 64 + sd) :: t)
              | none => none
            | none => none
        | none => none
    | _, _ => none
  | _ => none

/-- `arrayBufferToBase64` from lib/encryption.ts, at the byte-list level. -/
def arrayBufferToBase64 (bytes : List Nat) : String := String.mk (encodeChunks bytes)

/-- `base64ToArrayBuffer` from lib/encryption.ts; `none` models the
exception `atob` raises on malformed input. -/
def base64ToList (s : String) : Option (List Nat) := decodeChunks s.data

/- EncryptionManager (lib/encryption.ts)

`generateKeyFromPin` (PBKDF2-SHA-256, 100000 iterations, 256-bit AES-GCM
key, raw export) is the abstract parameter `kdf : String → List Nat →
List Nat` mapping a PIN and a 16-byte salt to the 32 exported key bytes. -/

/-- `hashPin`: fresh 16-byte `salt`, derive key, concatenate
`salt ++ keyBytes`, base64-encode.  The salt sampled by
`crypto.getRandomValues` is passed explicitly. -/
def hashPin (kdf : String → List Nat → List Nat) (salt : List Nat) (pin : String) : String :=
  arrayBufferToBase64 (salt ++ kdf pin salt)

/-- The constant-time comparison loop of `verifyPin`:
`result |= a[i] ^ b[i]` over all positions, then `result === 0`. -/
def constTimeEq (a b : List Nat) : Bool :=
  decide ((a.zip b).foldl (fun r p => r ||| (p.1 ^^^ p.2)) 0 = 0)

/-- `verifyPin`: decode the stored hash, split at byte 16 into salt and
stored key bytes, re-derive, compare lengths, then constant-time compare.
The surrounding `try/catch` returns `false` when decoding fails. -/
def verifyPin (kdf : String → List Nat → List Nat) (pin storedHash : String) : Bool :=
  match base64ToList storedHash with
  | none => false
  | some combined =>
    let salt := combined.take 16
    let storedKeyData := combined.drop 16
    let newKey := kdf pin salt
    if newKey.length ≠ storedKeyData.length then false
    else constTimeEq newKey storedKeyData

/-- The single error message thrown by `decryptFile`. -/
def decryptFailMsg : String := "Decryption failed - invalid PIN or corrupted data"

structure EncryptResult where
  encryptedData : List Nat
  salt : List Nat
  iv : List Nat
deriving Repr, DecidableEq

/-- `encryptFile`: derive a key from the PIN with a fresh salt, encrypt
under a fresh 12-byte IV with AES-GCM.  The fresh salt and IV sampled by
`crypto.getRandomValues` are passed explicitly; AES-GCM is the abstract
parameter `gcmEncrypt`. -/
def encryptFile (kdf : String → List Nat → List Nat)
    (gcmEncrypt : List Nat → List Nat → List Nat → List Nat)
    (salt iv : List Nat) (fileData : List Nat) (pin : String) : EncryptResult :=
  let key := kdf pin salt
  { encryptedData := gcmEncrypt key iv fileData, salt := salt, iv := iv }

/-- `decryptFile`: re-derive the key from `pin` and `salt`, attempt
AES-GCM decryption (`gcmDecrypt` returns `none` exactly when the
authentication tag fails to verify), and map any failure to the single
`decryptFailMsg` error. -/
def decryptFile (kdf : String → List Nat → List Nat)
    (gcmDecrypt : List Nat → List Nat → List Nat → Option (List Nat))
    (encryptedData : List Nat) (pin : String) (salt iv : List Nat) :
    Except String (List Nat) :=
  let key := kdf pin salt
  match gcmDecrypt key iv encryptedData with
  | some d => Except.ok d
  | none => Except.error decryptFailMsg

/- PinValidator (lib/encryption.ts) -/

def pinTooShortMsg : String := "PIN must be at least 4 characters long"
def pinTooLongMsg : String := "PIN must be no more than 20 characters long"
def pinNotNumericMsg : String := "PIN must contain only numbers"
def pinWeakMsg : String := "PIN is too weak - avoid simple patterns like 1234 or 0000"

/-- Prefix test on strings (regex `/^pat/`), at the char-list level. -/
def strStartsWith (s pat : String) : Bool := pat.data.isPrefixOf s.data

/-- Regex `/^(.)\1+$/`: all characters identical and length at least 2
(the backreference plus `+` requires at least one repetition). -/
def allSameChar (pin : String) : Bool :=
  match pin.data with
  | [] => false
  | [_] => false
  | c :: rest => rest.all (fun d => d == c)

/-- The literal weak-pattern list of `PinValidator.isWeakPin` (each regex
is start-anchored, so `test` is a prefix check). -/
def weakPrefixes : List String :=
  ["0123", "1234", "2345", "3456", "4567", "5678", "6789",
   "9876", "8765", "7654", "6543", "5432", "4321", "3210"]

def isWeakPin (pin : String) : Bool :=
  allSameChar pin || weakPrefixes.any (fun w => strStartsWith pin w)

/-- Regex `/^[0-9]+$/`: nonempty, every character a digit. -/
def isDigitsOnly (pin : String) : Bool :=
  pin.length != 0 && pin.data.all (fun c => decide ('0' ≤ c) && decide (c ≤ '9'))

structure PinValidation where
  isValid : Bool
  errors : List String
deriving Repr, DecidableEq

/-- `PinValidator.validatePin`: pushes one message per violated rule, in
source order; `isValid` iff no message was pushed.  (`!pin ||
pin.length < 4` collapses to `pin.length < 4` since the empty string has
length 0.) -/
def validatePin (pin : String) : PinValidation :=
  let errors : List String :=
    (if pin.length < 4 then [pinTooShortMsg] else []) ++
    (if 20 < pin.length then [pinTooLongMsg] else []) ++
    (if isDigitsOnly pin then [] else [pinNotNumericMsg]) ++
    (if isWeakPin pin then [pinWeakMsg] else [])
  { isValid := errors.isEmpty, errors := errors }

/-- The ascending 4-digit run starting at digit `i` (spec wording for the
weak-pattern set): digits `i, i+1, i+2, i+3`. -/
def ascRunAt (i : Nat) : String :=
  String.mk [Char.ofNat (48 + i), Char.ofNat (49 + i), Char.ofNat (50 + i), Char.ofNat (51 + i)]

/-- The descending 4-digit run starting at digit `9 - i`:
digits `9-i, 8-i, 7-i, 6-i`. -/
def descRunAt (i : Nat) : String :=
  String.mk [Char.ofNat (57 - i), Char.ofNat (56 - i), Char.ofNat (55 - i), Char.ofNat (54 - i)]

/-- The weak-pattern set as the claim words it: all characters identical
(at least one repetition), or one of the seven ascending runs
`0123`..`6789` anchored at the start, or one of the seven descending runs
`9876`..`3210` anchored at the start. -/
def specWeakPin (pin : String) : Prop :=
  (2 ≤ pin.length ∧ ∃ c, ∀ d ∈ pin.data, d = c) ∨
  (∃ i < 7, strStartsWith pin (ascRunAt i) = true) ∨
  (∃ i < 7, strStartsWith pin (descRunAt i) = true)

/- generateSecurePin (lib/encryption.ts) -/

/-- The `digits` constant of `generateSecurePin`. -/
def pinDigitsStr : String := "0123456789"

/-- `crypto.getRandomValues(new Uint8Array(1))[0] % digits.length`:
the digit index drawn from one random byte. -/
def byteToDigitIndex (b : Nat) : Nat := b % pinDigitsStr.length

/-- One 6-digit generation attempt, reading bytes `start..start+5` of the
random byte stream. -/
def attemptPin (randBytes : Nat → Nat) (start : Nat) : String :=
  String.mk ((List.range 6).map (fun i => pinDigitsStr.data.getD (byteToDigitIndex (randBytes (start + i))) '0'))

/-- `PinValidator.generateSecurePin`: draw six digits, retry from scratch
if the result is weak.  The unbounded recursion of the source is modelled
with explicit `fuel`; `none` means the fuel ran out. -/
def generateSecurePin (randBytes : Nat → Nat) (start fuel : Nat) : Option String :=
  match fuel with
  | 0 => none
  | Nat.succ f =>
    let pin := attemptPin randBytes start
    if isWeakPin pin then generateSecurePin randBytes (start + 6) f
    else some pin

/- VaultStorage (lib/storage.ts) and FileManager (components/FileManager.tsx) -/

/-- `VaultFile` from types (metadata fields plus the encrypted payload). -/
structure VaultFileRec where
  id : String
  name : String
  size : Nat
  type : String
  uploadDate : Nat
  encryptedData : List Nat
  preview : Option String
  category : Option String
deriving Repr, DecidableEq

structure EncMetaValue where
  salt : String
  iv : String
deriving Repr, DecidableEq

/-- A record of the `metadata` object store (key path `key`); the stored
`value` may be `null` (`none`), as written by `handleDelete`. -/
structure MetaRecord where
  key : String
  value : Option EncMetaValue
deriving Repr, DecidableEq

structure VaultSessionRec where
  id : String
  startTime : Nat
  lastActivity : Nat
  isActive : Bool
deriving Repr, DecidableEq

/-- IndexedDB `store.put` on the `files` store (create-or-replace keyed on
`id`). -/
def putFile (files : List VaultFileRec) (f : VaultFileRec) : List VaultFileRec :=
  if files.any (fun g => g.id == f.id) then
    files.map (fun g => if g.id == f.id then f else g)
  else files ++ [f]

/-- `VaultStorage.getFile`. -/
def getFile (files : List VaultFileRec) (fileId : String) : Option VaultFileRec :=
  files.find? (fun f => f.id == fileId)

/-- `VaultStorage.deleteFile`: IndexedDB `store.delete(fileId)` removes the
record with that key. -/
def deleteFile (files : List VaultFileRec) (fileId : String) : List VaultFileRec :=
  files.filter (fun f => !(f.id == fileId))

/-- `VaultStorage.setMetadata`: `store.put({ key, value })`. -/
def setMetadata (md : List MetaRecord) (key : String) (value : Option EncMetaValue) :
    List MetaRecord :=
  if md.any (fun r => r.key == key) then
    md.map (fun r => if r.key == key then { key := key, value := value } else r)
  else md ++ [{ key := key, value := value }]

/-- `VaultStorage.getMetadata`: `resolve(result ? result.value : null)`. -/
def getMetadata (md : List MetaRecord) (key : String) : Option EncMetaValue :=
  match md.find? (fun r => r.key == key) with
  | some r => r.value
  | none => none

/-- The two collections touched by file upload/download/delete. -/
structure VaultStore where
  files : List VaultFileRec
  metadata : List MetaRecord
deriving Repr, DecidableEq

/-- `FileManager.handleDelete` (after the user confirms):
`deleteFile(file.id)` then `setMetadata` of `file_` + id to null. -/
def handleDelete (st : VaultStore) (fileId : String) : VaultStore :=
  { files := deleteFile st.files fileId,
    metadata := setMetadata st.metadata ("file_" ++ fileId) none }

/-- The spec-level `downloadFile(fileId)` operation: look the file up by
id, then follow `FileManager.handleDownload` (fetch metadata under
`file_` + id, decode salt and IV, decrypt with the current PIN). -/
def downloadFileOp (kdf : String → List Nat → List Nat)
    (gcmDecrypt : List Nat → List Nat → List Nat → Option (List Nat))
    (st : VaultStore) (fileId : String) (pin : String) : Except String (List Nat) :=
  match getFile st.files fileId with
  | none => Except.error "File not found"
  | some f =>
    match getMetadata st.metadata ("file_" ++ fileId) with
    | none => Except.error "File metadata not found"
    | some m =>
      match base64ToList m.salt, base64ToList m.iv with
      | some salt, some iv => decryptFile kdf gcmDecrypt f.encryptedData pin salt iv
      | _, _ => Except.error "Failed to download file. Please check your PIN."

/-- `VaultStorage.putSession` behaviour of `store.put(session)` on the
`sessions` store (keyed on `id`). -/
def putSession (sessions : List VaultSessionRec) (s : VaultSessionRec) : List VaultSessionRec :=
  if sessions.any (fun t => t.id == s.id) then
    sessions.map (fun t => if t.id == s.id then s else t)
  else sessions ++ [s]

/-- `VaultStorage.endSession`: fetch the session; if present, set
`isActive := false` and `put` it back; if absent, resolve successfully
("Session does not exist, consider it ended").  The record is never
deleted. -/
def endSession (sessions : List VaultSessionRec) (sessionId : String) :
    Except String (List VaultSessionRec) :=
  match sessions.find? (fun s => s.id == sessionId) with
  | some s => Except.ok (putSession sessions { s with isActive := false })
  | none => Except.ok sessions

/- SecretVault component state machine (components/SecretVault.tsx)

The React state of the component plus the persisted collections it writes.
External events: typing in the PIN field, pressing Unlock (only possible
while the PIN form is rendered and enabled, i.e. not during lockout),
one-second countdown/clock ticks, first-time setup, and closing the vault.
-/

structure PinConfigRec where
  hash : String
  attempts : Nat
  lockoutUntil : Option Nat
  isFirstTime : Bool
deriving Repr, DecidableEq

inductive VaultEvent where
  | typePin (p : String)
  | submit
  | tick
  | setup (p : String)
  | close
deriving Repr, DecidableEq

structure VaultState where
  now : Nat
  pinConfig : Option PinConfigRec
  isUnlocked : Bool
  currentPin : String
  errorMsg : String
  attemptsShown : Nat
  isLockedOut : Bool
  lockoutTime : Nat
  sessions : List VaultSessionRec
  currentSession : Option String
deriving Repr, DecidableEq

/-- 15-minute lockout (`15 * 60 * 1000` ms in the source), in seconds. -/
def lockoutDurationS : Nat := 15 * 60

/-- `Invalid PIN. ${5 - newAttempts} attempts remaining.` — JavaScript
subtraction, hence over `Int`. -/
def invalidPinMsg (newAttempts : Nat) : String :=
  "Invalid PIN. " ++ toString ((5 : Int) - (newAttempts : Int)) ++ " attempts remaining."

/-- `VaultStorage.createSession` record, with the random id passed in. -/
def freshSession (id : String) (now : Nat) : VaultSessionRec :=
  { id := id, startTime := now, lastActivity := now, isActive := true }

/-- `initializeVault`: load the stored config; if `lockoutUntil` lies in
the future, enter the locked-out display with the remaining seconds. -/
def initVault (cfg : Option PinConfigRec) (sess : List VaultSessionRec) (t0 : Nat) : VaultState :=
  { now := t0
    pinConfig := cfg
    isUnlocked := false
    currentPin := ""
    errorMsg := ""
    attemptsShown := match cfg with | some c => c.attempts | none => 0
    isLockedOut := match cfg with
      | some c => match c.lockoutUntil with
        | some u => decide (t0 < u)
        | none => false
      | none => false
    lockoutTime := match cfg with
      | some c => match c.lockoutUntil with
        | some u => if t0 < u then u - t0 else 0
        | none => 0
      | none => 0
    sessions := sess
    currentSession := none }

/-- One step of the SecretVault component.

* `typePin`: the `setCurrentPin` handler of the controlled input.
* `tick`: one second of wall clock; while `isLockedOut && lockoutTime > 0`
  the countdown effect decrements `lockoutTime`, clearing `isLockedOut`
  when it reaches 0.
* `setup`: `handlePinSetup`, reachable only while no `PinConfig` exists
  (`PinSetup` is rendered only in that case).
* `submit`: `handlePinSubmit`.  During lockout the PIN input and Unlock
  button are not rendered (and are `disabled={isLockedOut}`), so the
  handler cannot fire: the submission is a no-op.  Otherwise the handler
  guards `if (!pinConfig || !currentPin) return`, then verifies the PIN.
* `close`: `handleClose`, ending the current session.

`verify` is `encryptionManager.verifyPin` with its key-derivation closed
over; `hashPinFn` likewise for `hashPin`; `freshId` is the random session
id `generateSecureId` would produce. -/
def step (verify : String → String → Bool) (hashPinFn : String → String)
    (freshId : String) (s : VaultState) : VaultEvent → VaultState
  | .typePin p => { s with currentPin := p }
  | .tick =>
      if s.isLockedOut ∧ 0 < s.lockoutTime then
        if s.lockoutTime ≤ 1 then
          { s with now := s.now + 1, isLockedOut := false, lockoutTime := 0 }
        else
          { s with now := s.now + 1, lockoutTime := s.lockoutTime - 1 }
      else { s with now := s.now + 1 }
  | .setup p =>
      match s.pinConfig with
      | some _ => s
      | none =>
          let cfg : PinConfigRec :=
            { hash := hashPinFn p, attempts := 0, lockoutUntil := none, isFirstTime := false }
          { s with pinConfig := some cfg
                   currentPin := p
                   sessions := putSession s.sessions (freshSession freshId s.now)
                   currentSession := some freshId
                   isUnlocked := true }
  | .submit =>
      if s.isLockedOut then s
      else
        match s.pinConfig with
        | none => s
        | some cfg =>
            if s.currentPin = "" then s
            else if verify s.currentPin cfg.hash then
              let cfg2 := { cfg with attempts := 0, lockoutUntil := none }
              { s with pinConfig := some cfg2
                       errorMsg := ""
                       sessions := putSession s.sessions (freshSession freshId s.now)
                       currentSession := some freshId
                       isUnlocked := true }
            else
              let newAttempts := cfg.attempts + 1
              let cfg2 := { cfg with
                            attempts := newAttempts,
                            lockoutUntil :=
                              if 5 ≤ newAttempts then some (s.now + lockoutDurationS) else none }
              { s with pinConfig := some cfg2
                       attemptsShown := newAttempts
                       isLockedOut := decide (5 ≤ newAttempts)
                       lockoutTime := if 5 ≤ newAttempts then lockoutDurationS else s.lockoutTime
                       errorMsg := invalidPinMsg newAttempts
                       currentPin := "" }
  | .close =>
      match s.currentSession with
      | some sid =>
          { s with sessions := (match endSession s.sessions sid with
                                | .ok l => l
                                | .error _ => s.sessions)
                   currentSession := none
                   isUnlocked := false }
      | none => { s with isUnlocked := false }

/-- Run a sequence of events; each event carries the fresh session id that
would be drawn if a session is created during it. -/
def runVault (verify : String → String → Bool) (hashPinFn : String → String)
    (evs : List (VaultEvent × String)) (s : VaultState) : VaultState :=
  evs.foldl (fun st ev => step verify hashPinFn ev.2 st ev.1) s

/-- The persisted attempt counter (0 when no `PinConfig` exists yet). -/
def attemptsOf (s : VaultState) : Nat :=
  match s.pinConfig with
  | some c => c.attempts
  | none => 0

/-- The only two operations allowed to reset the persisted counter to 0: a
PIN submission that verifies successfully, or initial PIN setup. -/
def resetJustified (verify : String → String → Bool) (s : VaultState) (e : VaultEvent) : Prop :=
  (e = VaultEvent.submit ∧ ∃ cfg, s.pinConfig = some cfg ∧ verify s.currentPin cfg.hash = true) ∨
  (∃ p, e = VaultEvent.setup p)

/-- Lockout-countdown invariant tying wall clock to the countdown display:
while the stored `lockoutUntil` lies in the future, the component is in the
locked-out display and the countdown has at least the remaining seconds
left. -/
def lockoutInv (s : VaultState) : Prop :=
  ∀ cfg u, s.pinConfig = some cfg → cfg.lockoutUntil = some u → s.now < u →
    s.isLockedOut = true ∧ u - s.now ≤ s.lockoutTime

/- Concrete instances used by witnesses and counterexamples -/

/-- Toy key-derivation for witnesses: the character codes of the PIN. -/
def testKdf : String → List Nat → List Nat := fun pin _ => pin.data.map Char.toNat

/-- Toy cipher for the round-trip witness: identity. -/
def testEnc : List Nat → List Nat → List Nat → List Nat := fun _ _ m => m

def testDecOk : List Nat → List Nat → List Nat → Option (List Nat) := fun _ _ c => some c

/-- Toy cipher whose authentication always fails, for the wrong-PIN witness. -/
def testDecFail : List Nat → List Nat → List Nat → Option (List Nat) := fun _ _ _ => none

/-- Byte stream for the `generateSecurePin` witness. -/
def testRandBytes : Nat → Nat := fun i => 2 * i + 1

/-- Stored config for the C1 witness: 5 failed attempts, locked out until
second 100. -/
def c1Cfg : PinConfigRec :=
  { hash := "storedhash", attempts := 5, lockoutUntil := some 100, isFirstTime := false }

/-- State for the C2 witness: two prior failures, not locked out, PIN typed. -/
def c2Cfg : PinConfigRec :=
  { hash := "storedhash", attempts := 2, lockoutUntil := none, isFirstTime := false }

def c2State : VaultState :=
  { now := 50, pinConfig := some c2Cfg, isUnlocked := false, currentPin := "9999",
    errorMsg := "", attemptsShown := 2, isLockedOut := false, lockoutTime := 0,
    sessions := [], currentSession := none }

/-- State for the C3 witness: lockout expired (counter still 5), wrong PIN typed. -/
def c3Cfg : PinConfigRec :=
  { hash := "storedhash", attempts := 5, lockoutUntil := some 100, isFirstTime := false }

def c3State : VaultState :=
  { now := 1000, pinConfig := some c3Cfg, isUnlocked := false, currentPin := "0000",
    errorMsg := "", attemptsShown := 5, isLockedOut := false, lockoutTime := 0,
    sessions := [], currentSession := none }

/-- One uploaded file with its metadata record, for C9. -/
def c9File : VaultFileRec :=
  { id := "a1", name := "f.txt", size := 3, type := "text/plain", uploadDate := 0,
    encryptedData := [1, 2, 3], preview := none, category := none }

def c9Store : VaultStore :=
  { files := [c9File],
    metadata := [{ key := "file_" ++ "a1", value := some { salt := "AAAA", iv := "BBBB" } }] }

/-- Session store for the C10 witness. -/
def c10Sessions : List VaultSessionRec :=
  [{ id := "sid1", startTime := 5, lastActivity := 7, isActive := true }]

/- Supporting lemmas -/

theorem lorEqZero (a b : Nat) : a ||| b = 0 ↔ a = 0 ∧ b = 0 := by
  constructor
  · intro h
    have key : ∀ i, a.testBit i = false ∧ b.testBit i = false := by
      intro i
      have hb := congrArg (fun n => n.testBit i) h
      simpa [Nat.testBit_lor, Nat.zero_testBit] using hb
    exact ⟨Nat.eq_of_testBit_eq (fun i => by simp [(key i).1, Nat.zero_testBit]),
           Nat.eq_of_testBit_eq (fun i => by simp [(key i).2, Nat.zero_testBit])⟩
  · rintro ⟨rfl, rfl⟩
    rfl

theorem foldl_lor_eq_zero (l : List (Nat × Nat)) (acc : Nat) :
    (l.foldl (fun r p => r ||| (p.1 ^^^ p.2)) acc = 0) ↔ (acc = 0 ∧ ∀ p ∈ l, p.1 = p.2) := by
  induction l generalizing acc with
  | nil => simp
  | cons p t ih =>
    rw [List.foldl_cons, ih, lorEqZero, Nat.xor_eq_zero]
    simp [and_assoc]

theorem zip_forall_eq (a : List Nat) :
    ∀ b : List Nat, a.length = b.length → ((∀ p ∈ a.zip b, p.1 = p.2) ↔ a = b) := by
  induction a with
  | nil =>
    intro b h
    cases b with
    | nil => simp
    | cons y u => simp at h
  | cons x t ih =>
    intro b h
    cases b with
    | nil => simp at h
    | cons y u =>
      have hlen : t.length = u.length := by simpa using h
      simp only [List.zip_cons_cons, List.forall_mem_cons]
      constructor
      · rintro ⟨h1, h2⟩
        simp [h1, (ih u hlen).mp h2]
      · intro h12
        obtain ⟨rfl, rfl⟩ : x = y ∧ t = u := by simpa using h12
        exact ⟨rfl, (ih _ hlen).mpr rfl⟩

theorem constTimeEq_iff (a b : List Nat) (h : a.length = b.length) :
    constTimeEq a b = true ↔ a = b := by
  unfold constTimeEq
  rw [decide_eq_true_iff, foldl_lor_eq_zero, zip_forall_eq a b h]
  simp

theorem charSextet_sextetChar : ∀ n, n < 64 → charSextet (sextetChar n) = some n := by decide

theorem sextetChar_ne_eqChar : ∀ n, n < 64 → ¬ sextetChar n = '=' := by decide

theorem decodeChunks_encodeChunks (l : List Nat) (h : ∀ b ∈ l, b < 256) :
    decodeChunks (encodeChunks l) = some l := by
  match l with
  | [] => rfl
  | [x] =>
    have hx : x < 256 := h x (by simp)
    have h1 : x / 4 < 64 := by omega
    have h2 : x % 4 * 16 < 64 := by omega
    simp [encodeChunks, decodeChunks, charSextet_sextetChar _ h1, charSextet_sextetChar _ h2]
    omega
  | [x, y] =>
    have hx : x < 256 := h x (by simp)
    have hy : y < 256 := h y (by simp)
    have h1 : x / 4 < 64 := by omega
    have h2 : x % 4 * 16 + y / 16 < 64 := by omega
    have h3 : y % 16 * 4 < 64 := by omega
    have hne3 := sextetChar_ne_eqChar _ h3
    simp [encodeChunks, decodeChunks, charSextet_sextetChar _ h1, charSextet_sextetChar _ h2,
      charSextet_sextetChar _ h3, hne3]
    omega
  | x :: y :: z :: rest =>
    have hx : x < 256 := h x (by simp)
    have hy : y < 256 := h y (by simp)
    have hz : z < 256 := h z (by simp)
    have ih := decodeChunks_encodeChunks rest (fun b hb => h b (by simp [hb]))
    have h1 : x / 4 < 64 := by omega
    have h2 : x % 4 * 16 + y / 16 < 64 := by omega
    have h3 : y % 16 * 4 + z / 64 < 64 := by omega
    have h4 : z % 64 < 64 := by omega
    have hne3 := sextetChar_ne_eqChar _ h3
    have hne4 := sextetChar_ne_eqChar _ h4
    simp [encodeChunks, decodeChunks, charSextet_sextetChar _ h1, charSextet_sextetChar _ h2,
      charSextet_sextetChar _ h3, charSextet_sextetChar _ h4, hne3, hne4, ih]
    omega

theorem base64_roundtrip (l : List Nat) (h : ∀ b ∈ l, b < 256) :
    base64ToList (arrayBufferToBase64 l) = some l := by
  unfold base64ToList arrayBufferToBase64
  exact decodeChunks_encodeChunks l h

/- Claims C4, C5, C6 -/

/-- C4: for every policy-valid PIN `p`, `verifyPin(p, hashPin(p))` is true;
and whenever a different candidate `q` derives different key bytes than `p`
under the stored salt (the collision-freeness idealization of PBKDF2 for
`q ≠ p`), `verifyPin(q, hashPin(p))` is false.  `hashPin` encodes the
16-byte salt concatenated with the derived key bytes, and `verifyPin`
splits at byte 16, re-derives, and compares by accumulating an OR of XORs. -/
theorem claim_C4 (kdf : String → List Nat → List Nat) (salt : List Nat) (p q : String)
    (hvalid : (validatePin p).isValid = true)
    (hlen : salt.length = 16)
    (hsalt : ∀ b ∈ salt, b < 256)
    (hkey : ∀ b ∈ kdf p salt, b < 256)
    (hne : kdf q salt ≠ kdf p salt) :
    verifyPin kdf p (hashPin kdf salt p) = true ∧
    verifyPin kdf q (hashPin kdf salt p) = false := by
  have hbytes : ∀ b ∈ salt ++ kdf p salt, b < 256 := by
    intro b hb
    rcases List.mem_append.mp hb with hb | hb
    · exact hsalt b hb
    · exact hkey b hb
  have hdec : base64ToList (hashPin kdf salt p) = some (salt ++ kdf p salt) :=
    base64_roundtrip _ hbytes
  have htake : (salt ++ kdf p salt).take 16 = salt := by
    rw [← hlen]
    exact List.take_left salt (kdf p salt)
  have hdrop : (salt ++ kdf p salt).drop 16 = kdf p salt := by
    rw [← hlen]
    exact List.drop_left salt (kdf p salt)
  constructor
  · unfold verifyPin
    rw [hdec]
    simp only [htake, hdrop]
    rw [if_neg (by simp)]
    exact (constTimeEq_iff _ _ rfl).mpr rfl
  · unfold verifyPin
    rw [hdec]
    simp only [htake, hdrop]
    by_cases hl : (kdf q salt).length = (kdf p salt).length
    · rw [if_neg (by simpa using hl)]
      rcases hc : constTimeEq (kdf q salt) (kdf p salt) with _ | _
      · rfl
      · exact absurd ((constTimeEq_iff _ _ hl).mp hc) hne
    · rw [if_pos (by simpa using hl)]

/-- C4 witness: concrete key-derivation (character codes), `p = "1357"`
(policy-valid), `q = "2468"`. -/
theorem claim_C4_witness :
    verifyPin testKdf "1357" (hashPin testKdf (List.range 16) "1357") = true ∧
    verifyPin testKdf "2468" (hashPin testKdf (List.range 16) "1357") = false :=
  claim_C4 testKdf (List.range 16) "1357" "2468" (by decide) (by decide) (by decide)
    (by decide) (by decide)

/-- C5: decrypting the ciphertext produced by `encryptFile` with the same
PIN, salt and nonce reproduces the plaintext, given that AES-GCM
(`gcmDecrypt`) inverts `gcmEncrypt` under the same key and nonce at this
instance — the code re-derives the same key and threads the salt and IV
through unchanged. -/
theorem claim_C5 (kdf : String → List Nat → List Nat)
    (gcmEncrypt : List Nat → List Nat → List Nat → List Nat)
    (gcmDecrypt : List Nat → List Nat → List Nat → Option (List Nat))
    (salt iv b : List Nat) (p : String)
    (hgcm : gcmDecrypt (kdf p salt) iv (gcmEncrypt (kdf p salt) iv b) = some b) :
    decryptFile kdf gcmDecrypt (encryptFile kdf gcmEncrypt salt iv b p).encryptedData p salt iv
      = Except.ok b := by
  unfold decryptFile encryptFile
  simp [hgcm]

/-- C5 witness: identity cipher, concrete payload. -/
theorem claim_C5_witness :
    decryptFile testKdf testDecOk
      (encryptFile testKdf testEnc [7] [9] [1, 2, 3] "1357").encryptedData "1357" [7] [9]
      = Except.ok [1, 2, 3] :=
  claim_C5 testKdf testEnc testDecOk [7] [9] [1, 2, 3] "1357" rfl

/-- C6: decrypting a ciphertext produced under PIN `p1` with a different
PIN `p2` (same salt and nonce) fails, given that AES-GCM rejects the
mismatched key (tag failure) at this instance; the resulting error is the
single constant `decryptFailMsg`, and any tag failure on corrupted data
yields the very same error, so the caller cannot tell a wrong PIN from
corrupted ciphertext. -/
theorem claim_C6 (kdf : String → List Nat → List Nat)
    (gcmEncrypt : List Nat → List Nat → List Nat → List Nat)
    (gcmDecrypt : List Nat → List Nat → List Nat → Option (List Nat))
    (salt iv b : List Nat) (p1 p2 : String)
    (hpins : p1 ≠ p2)
    (hgcm : gcmDecrypt (kdf p2 salt) iv (gcmEncrypt (kdf p1 salt) iv b) = none) :
    decryptFile kdf gcmDecrypt (encryptFile kdf gcmEncrypt salt iv b p1).encryptedData p2 salt iv
      = Except.error decryptFailMsg ∧
    (∀ corrupted, gcmDecrypt (kdf p2 salt) iv corrupted = none →
      decryptFile kdf gcmDecrypt corrupted p2 salt iv = Except.error decryptFailMsg) := by
  constructor
  · unfold decryptFile encryptFile
    simp [hgcm]
  · intro corrupted hc
    unfold decryptFile
    simp [hc]

/-- C6 witness: always-rejecting cipher, `p1 = "1357"`, `p2 = "2468"`. -/
theorem claim_C6_witness :
    decryptFile testKdf testDecFail
      (encryptFile testKdf testEnc [7] [9] [1, 2, 3] "1357").encryptedData "2468" [7] [9]
      = Except.error decryptFailMsg :=
  (claim_C6 testKdf testEnc testDecFail [7] [9] [1, 2, 3] "1357" "2468" (by decide) rfl).1

/- Claim C7 -/

theorem mem_ite_singleton {c : Prop} [Decidable c] (a m : String) :
    (a ∈ if c then [m] else []) ↔ (c ∧ a = m) := by
  split <;> simp_all

theorem mem_ite_singleton_neg {c : Prop} [Decidable c] (a m : String) :
    (a ∈ if c then [] else [m]) ↔ (¬ c ∧ a = m) := by
  split <;> simp_all

theorem allSameChar_iff (pin : String) :
    allSameChar pin = true ↔ (2 ≤ pin.length ∧ ∃ c, ∀ d ∈ pin.data, d = c) := by
  obtain ⟨l⟩ := pin
  rcases l with _ | ⟨a, _ | ⟨b, t⟩⟩
  · simp [allSameChar, String.length]
  · simp [allSameChar, String.length]
  · simp only [allSameChar, String.length, List.length_cons, List.all_eq_true, beq_iff_eq]
    constructor
    · intro hall
      refine ⟨by omega, a, ?_⟩
      intro d hd
      rcases List.mem_cons.mp hd with rfl | hd
      · rfl
      · exact hall d hd
    · rintro ⟨-, c, hc⟩
      intro d hd
      have hda : d = c := hc d (List.mem_cons_of_mem _ hd)
      have haa : a = c := hc a (by simp)
      rw [hda, haa]

theorem weakPrefixes_eq :
    weakPrefixes = (List.range 7).map ascRunAt ++ (List.range 7).map descRunAt := by decide

theorem weakPrefix_any_iff (pin : String) :
    (weakPrefixes.any (fun w => strStartsWith pin w) = true) ↔
      ((∃ i < 7, strStartsWith pin (ascRunAt i) = true) ∨
       (∃ i < 7, strStartsWith pin (descRunAt i) = true)) := by
  rw [weakPrefixes_eq]
  simp only [List.any_eq_true, List.mem_append, List.mem_map, List.mem_range]
  constructor
  · rintro ⟨w, (⟨i, hi, rfl⟩ | ⟨i, hi, rfl⟩), hw⟩
    · exact Or.inl ⟨i, hi, hw⟩
    · exact Or.inr ⟨i, hi, hw⟩
  · rintro (⟨i, hi, hw⟩ | ⟨i, hi, hw⟩)
    · exact ⟨ascRunAt i, Or.inl ⟨i, hi, rfl⟩, hw⟩
    · exact ⟨descRunAt i, Or.inr ⟨i, hi, rfl⟩, hw⟩

theorem isWeakPin_iff (pin : String) : isWeakPin pin = true ↔ specWeakPin pin := by
  unfold isWeakPin specWeakPin
  rw [Bool.or_eq_true, allSameChar_iff, weakPrefix_any_iff]

theorem isDigitsOnly_iff (pin : String) :
    isDigitsOnly pin = true ↔ (1 ≤ pin.length ∧ ∀ c ∈ pin.data, '0' ≤ c ∧ c ≤ '9') := by
  unfold isDigitsOnly
  simp only [Bool.and_eq_true, List.all_eq_true, Bool.and_eq_true, decide_eq_true_eq,
    bne_iff_ne, ne_eq]
  constructor
  · rintro ⟨h1, h2⟩
    exact ⟨by omega, h2⟩
  · rintro ⟨h1, h2⟩
    exact ⟨by omega, h2⟩

theorem validatePin_mem (pin : String) (msg : String) :
    (msg ∈ (validatePin pin).errors) ↔
      ((pin.length < 4 ∧ msg = pinTooShortMsg) ∨
       (20 < pin.length ∧ msg = pinTooLongMsg) ∨
       (¬ isDigitsOnly pin = true ∧ msg = pinNotNumericMsg) ∨
       (isWeakPin pin = true ∧ msg = pinWeakMsg)) := by
  simp [validatePin, List.mem_append, mem_ite_singleton, mem_ite_singleton_neg, or_assoc]

/-- C7: `validatePin` collects the complete list of violated rules — a
message of a rule appears in `errors` exactly when that rule is violated
(length at least 4, length at most 20, nonempty digits-only, and the
weak-pattern set: all characters identical, or one of the ascending runs
`0123`..`6789` or descending runs `9876`..`3210` anchored at the start) —
`isValid` holds exactly when no rule is violated, and on the concrete
examples: `"1234"`, `"0000"`, `"9876"` are invalid with a weak-pattern
error while `"1357"` is valid. -/
theorem claim_C7 :
    (∀ pin : String,
      ((validatePin pin).isValid = true ↔ (validatePin pin).errors = []) ∧
      (pinTooShortMsg ∈ (validatePin pin).errors ↔ pin.length < 4) ∧
      (pinTooLongMsg ∈ (validatePin pin).errors ↔ 20 < pin.length) ∧
      (pinNotNumericMsg ∈ (validatePin pin).errors ↔
        ¬ (1 ≤ pin.length ∧ ∀ c ∈ pin.data, '0' ≤ c ∧ c ≤ '9')) ∧
      (pinWeakMsg ∈ (validatePin pin).errors ↔ specWeakPin pin)) ∧
    ((validatePin "1234").isValid = false ∧ pinWeakMsg ∈ (validatePin "1234").errors) ∧
    ((validatePin "0000").isValid = false ∧ pinWeakMsg ∈ (validatePin "0000").errors) ∧
    ((validatePin "9876").isValid = false ∧ pinWeakMsg ∈ (validatePin "9876").errors) ∧
    (validatePin "1357").isValid = true := by
  refine ⟨?_, by decide, by decide, by decide, by decide⟩
  intro pin
  refine ⟨?_, ?_, ?_, ?_, ?_⟩
  · simp [validatePin, List.isEmpty_iff]
  · rw [validatePin_mem]
    simp [pinTooShortMsg, pinTooLongMsg, pinNotNumericMsg, pinWeakMsg]
  · rw [validatePin_mem]
    simp [pinTooShortMsg, pinTooLongMsg, pinNotNumericMsg, pinWeakMsg]
  · rw [validatePin_mem]
    simp only [pinTooShortMsg, pinTooLongMsg, pinNotNumericMsg, pinWeakMsg]
    rw [← isDigitsOnly_iff]
    simp
  · rw [validatePin_mem]
    simp only [pinTooShortMsg, pinTooLongMsg, pinNotNumericMsg, pinWeakMsg]
    rw [← isWeakPin_iff]
    simp

/-- C7 witness: concrete evaluation of the valid example through the claim
theorem. -/
theorem claim_C7_witness : (validatePin "1357").isValid = true :=
  claim_C7.2.2.2.2

/- Claim C8 -/

set_option maxRecDepth 10000 in
/-- C8 counterexample: the digit index is `byte % 10` over a uniform byte
`0..255`, so 26 of the 256 byte values map to digit 0 while only 25 map to
digit 9 — the ten digits are not equally likely for a draw, refuting "each
of the ten digits equally likely for each draw from the underlying random
bytes". -/
theorem claim_C8_counterexample :
    ((List.range 256).countP (fun b => byteToDigitIndex b == 0) = 26) ∧
    ((List.range 256).countP (fun b => byteToDigitIndex b == 9) = 25) ∧
    (26 : Nat) ≠ 25 := by decide

theorem attemptPin_length (randBytes : Nat → Nat) (start : Nat) :
    (attemptPin randBytes start).length = 6 := rfl

theorem attemptPin_digits (randBytes : Nat → Nat) (start : Nat) :
    ∀ c ∈ (attemptPin randBytes start).data, c ∈ pinDigitsStr.data := by
  intro c hc
  simp only [attemptPin, List.mem_map] at hc
  obtain ⟨i, -, rfl⟩ := hc
  have hidx : byteToDigitIndex (randBytes (start + i)) < pinDigitsStr.data.length := by
    have : pinDigitsStr.data.length = 10 := by decide
    rw [this]
    exact Nat.mod_lt _ (by decide)
  rw [List.getD_eq_getElem pinDigitsStr.data '0' hidx]
  exact List.getElem_mem hidx

/-- C8 (amended): `generateSecurePin` draws each digit as a uniform random
byte reduced mod 10 (`byteToDigitIndex`, slightly biased towards digits
0–5), and retries from scratch while the attempt is weak — so any returned
PIN is a 6-character digits-only string that does not match a weak pattern,
and is one of the attempts read off the random byte stream in blocks of
six. -/
theorem claim_C8 (randBytes : Nat → Nat) (start fuel : Nat) (pin : String)
    (h : generateSecurePin randBytes start fuel = some pin) :
    isWeakPin pin = false ∧ pin.length = 6 ∧
    (∀ c ∈ pin.data, c ∈ pinDigitsStr.data) ∧
    ∃ k, pin = attemptPin randBytes (start + 6 * k) := by
  induction fuel generalizing start with
  | zero => simp [generateSecurePin] at h
  | succ f ih =>
    rw [generateSecurePin] at h
    by_cases hw : isWeakPin (attemptPin randBytes start) = true
    · rw [if_pos hw] at h
      obtain ⟨hnw, hlen, hdig, k, hk⟩ := ih (start + 6) h
      refine ⟨hnw, hlen, hdig, k + 1, ?_⟩
      have harg : start + 6 + 6 * k = start + 6 * (k + 1) := by omega
      rw [hk, harg]
    · rw [if_neg hw] at h
      obtain rfl : attemptPin randBytes start = pin := by
        simpa using h
      refine ⟨by simpa using hw, attemptPin_length randBytes start,
        attemptPin_digits randBytes start, 0, ?_⟩
      have harg : start = start + 6 * 0 := by omega
      rw [← harg]

/-- C8 witness: the stream `i ↦ 2i + 1` yields `"135791"` on the first
attempt, which is not weak. -/
theorem claim_C8_witness :
    isWeakPin "135791" = false ∧ ("135791" : String).length = 6 ∧
    (∀ c ∈ ("135791" : String).data, c ∈ pinDigitsStr.data) ∧
    ∃ k, ("135791" : String) = attemptPin testRandBytes (0 + 6 * k) :=
  claim_C8 testRandBytes 0 1 "135791" (by decide)

/- Claim C9 -/

theorem find?_filter_ne_none (l : List VaultFileRec) (fileId : String) :
    (l.filter (fun f => !(f.id == fileId))).find? (fun f => f.id == fileId) = none := by
  rw [List.find?_eq_none]
  intro f hf
  have := List.of_mem_filter hf
  simpa using this

theorem setMetadata_find (md : List MetaRecord) (k : String) (v : Option EncMetaValue) :
    (setMetadata md k v).find? (fun r => r.key == k) = some { key := k, value := v } := by
  unfold setMetadata
  by_cases h : md.any (fun r => r.key == k) = true
  · rw [if_pos h]
    induction md with
    | nil => simp at h
    | cons r t ih =>
      by_cases hr : (r.key == k) = true
      · rw [List.map_cons, if_pos hr]
        exact List.find?_cons_of_pos _ (by simp)
      · simp only [List.any_cons, Bool.or_eq_true] at h
        rcases h with h | h
        · exact absurd h hr
        · rw [List.map_cons, if_neg hr]
          have hstep : List.find? (fun q => q.key == k)
              (r :: List.map (fun q => if (q.key == k) = true then { key := k, value := v } else q) t)
              = List.find? (fun q => q.key == k)
                (List.map (fun q => if (q.key == k) = true then { key := k, value := v } else q) t) :=
            List.find?_cons_of_neg _ hr
          rw [hstep]
          exact ih h
  · rw [if_neg h]
    rw [List.find?_append]
    have hnone : md.find? (fun r => r.key == k) = none := by
      rw [List.find?_eq_none]
      intro r hr hcontra
      exact h (List.any_eq_true.mpr ⟨r, hr, hcontra⟩)
    rw [hnone]
    simp

/-- C9 counterexample: upload one file and delete it — the metadata object
store still contains a record under key `"file_" + id` (with a `null`
value), because `handleDelete` writes `setMetadata(key, null)` instead of
deleting the record; the claimed "removes … its corresponding
EncryptionMetadata record" is false. -/
theorem claim_C9_counterexample :
    ¬ ((handleDelete c9Store "a1").metadata.find? (fun r => r.key == "file_" ++ "a1") = none) := by
  decide

/-- C9 (amended): after `handleDelete`, the VaultFile record is removed and
the metadata record under `"file_" + id` is overwritten with a `null`
value — so `getMetadata` yields nothing and `downloadFile(id)` fails with a
not-found condition — but the metadata record itself remains in the store
(with `value = null`) rather than being removed. -/
theorem claim_C9 (st : VaultStore) (fileId : String)
    (kdf : String → List Nat → List Nat)
    (gcmDecrypt : List Nat → List Nat → List Nat → Option (List Nat)) (pin : String) :
    getFile (handleDelete st fileId).files fileId = none ∧
    getMetadata (handleDelete st fileId).metadata ("file_" ++ fileId) = none ∧
    downloadFileOp kdf gcmDecrypt (handleDelete st fileId) fileId pin
      = Except.error "File not found" ∧
    (handleDelete st fileId).metadata.find? (fun r => r.key == "file_" ++ fileId)
      = some { key := "file_" ++ fileId, value := none } := by
  have hfile : getFile (handleDelete st fileId).files fileId = none := by
    unfold handleDelete getFile deleteFile
    exact find?_filter_ne_none st.files fileId
  have hfind : (handleDelete st fileId).metadata.find? (fun r => r.key == "file_" ++ fileId)
      = some { key := "file_" ++ fileId, value := none } := by
    unfold handleDelete
    exact setMetadata_find st.metadata ("file_" ++ fileId) none
  refine ⟨hfile, ?_, ?_, hfind⟩
  · unfold getMetadata
    rw [hfind]
  · unfold downloadFileOp
    rw [hfile]

/-- C9 witness: the concrete one-file store, with any decryption
parameters. -/
theorem claim_C9_witness :
    getFile (handleDelete c9Store "a1").files "a1" = none ∧
    getMetadata (handleDelete c9Store "a1").metadata ("file_" ++ "a1") = none ∧
    downloadFileOp testKdf testDecFail (handleDelete c9Store "a1") "a1" "1357"
      = Except.error "File not found" ∧
    (handleDelete c9Store "a1").metadata.find? (fun r => r.key == "file_" ++ "a1")
      = some { key := "file_" ++ "a1", value := none } :=
  claim_C9 c9Store "a1" testKdf testDecFail "1357"

/- Claim C10 -/

theorem id_unique (sessions : List VaultSessionRec)
    (hnodup : (sessions.map (fun s => s.id)).Nodup) :
    ∀ s ∈ sessions, ∀ t ∈ sessions, t.id = s.id → t = s := by
  induction sessions with
  | nil => simp
  | cons u rest ih =>
    simp only [List.map_cons, List.nodup_cons] at hnodup
    obtain ⟨hu, hrest⟩ := hnodup
    intro s hs t ht hts
    rcases List.mem_cons.mp hs with hsu | hs
    · rcases List.mem_cons.mp ht with htu | ht
      · rw [hsu, htu]
      · exact absurd (show u.id ∈ List.map (fun s => s.id) rest from
          List.mem_map.mpr ⟨t, ht, by rw [hts, hsu]⟩) hu
    · rcases List.mem_cons.mp ht with htu | ht
      · exact absurd (show u.id ∈ List.map (fun s => s.id) rest from
          List.mem_map.mpr ⟨s, hs, by rw [← hts, htu]⟩) hu
      · exact ih hrest s hs t ht hts

/-- C10: `endSession` succeeds without error when the session id is absent
(the store is returned unchanged — a missing session is treated as already
ended); when the id is present it only flips the `isActive` of that session to
`false`, preserving `id`, `startTime` and `lastActivity` of every record
and never deleting any record (the store keeps the same length, with every
session surviving under its id). -/
theorem claim_C10 (sessions : List VaultSessionRec) (sessionId : String)
    (hnodup : (sessions.map (fun s => s.id)).Nodup) :
    endSession sessions sessionId =
      Except.ok (sessions.map
        (fun s => if s.id == sessionId then { s with isActive := false } else s)) ∧
    (∀ s ∈ sessions,
      ∃ t ∈ sessions.map
          (fun s => if s.id == sessionId then { s with isActive := false } else s),
        t.id = s.id ∧ t.startTime = s.startTime ∧ t.lastActivity = s.lastActivity ∧
        (t.isActive = s.isActive ∨ (t.id = sessionId ∧ t.isActive = false))) ∧
    (sessions.map
        (fun s => if s.id == sessionId then { s with isActive := false } else s)).length
      = sessions.length := by
  refine ⟨?_, ?_, by simp⟩
  · unfold endSession
    rcases hfind : sessions.find? (fun s => s.id == sessionId) with _ | ⟨s⟩
    · have hnone := hfind
      rw [List.find?_eq_none] at hnone
      have hmap : sessions.map
          (fun s => if s.id == sessionId then { s with isActive := false } else s)
          = sessions := by
        have := List.map_congr_left
          (f := fun s : VaultSessionRec => if s.id == sessionId then { s with isActive := false } else s)
          (g := fun s : VaultSessionRec => s)
          (l := sessions)
          (fun t ht => by
            show (if (t.id == sessionId) = true then { t with isActive := false } else t) = t
            rw [if_neg (by simpa using hnone t ht)])
        simpa using this
      rw [hfind, hmap]
    · have hs_mem : s ∈ sessions := List.mem_of_find?_eq_some hfind
      have hs_id : s.id = sessionId := by simpa using List.find?_some hfind
      have hany : sessions.any (fun t => t.id == s.id) = true :=
        List.any_eq_true.mpr ⟨s, hs_mem, by simp⟩
      rw [hfind]
      show Except.ok (putSession sessions { s with isActive := false }) = _
      unfold putSession
      rw [if_pos (by simpa using hany)]
      congr 1
      apply List.map_congr_left
      intro t ht
      by_cases htid : t.id = sessionId
      · have ht1 : (t.id == VaultSessionRec.id { s with isActive := false }) = true := by
          simp [htid, hs_id]
        have ht2 : (t.id == sessionId) = true := by simp [htid]
        rw [if_pos ht1, if_pos ht2]
        have hts : t = s := id_unique sessions hnodup s hs_mem t ht (by rw [htid, hs_id])
        rw [hts]
      · have hneq : t.id ≠ s.id := by rw [hs_id]; exact htid
        have ht1 : ¬ (t.id == VaultSessionRec.id { s with isActive := false }) = true := by
          simpa using hneq
        have ht2 : ¬ (t.id == sessionId) = true := by simpa using htid
        rw [if_neg ht1, if_neg ht2]
  · intro s hs
    refine ⟨if s.id == sessionId then { s with isActive := false } else s,
      List.mem_map_of_mem _ hs, ?_⟩
    by_cases hid : s.id = sessionId
    · simp [hid]
    · simp [hid]

/- Claims C1, C2, C3: the SecretVault state machine -/

theorem lockoutInv_init (cfg : Option PinConfigRec) (sess : List VaultSessionRec) (t0 : Nat) :
    lockoutInv (initVault cfg sess t0) := by
  intro c u hc hu hnow
  have hcfg : cfg = some c := hc
  subst hcfg
  have ht0 : t0 < u := hnow
  constructor
  · show (match some c with
      | some c2 => match c2.lockoutUntil with
        | some u2 => decide (t0 < u2)
        | none => false
      | none => false) = true
    simp [hu, ht0]
  · show u - t0 ≤ (match some c with
      | some c2 => match c2.lockoutUntil with
        | some u2 => if t0 < u2 then u2 - t0 else 0
        | none => 0
      | none => 0)
    simp [hu, ht0]

theorem lockoutInv_step (verify : String → String → Bool) (hashPinFn : String → String)
    (freshId : String) (s : VaultState) (e : VaultEvent) (h : lockoutInv s) :
    lockoutInv (step verify hashPinFn freshId s e) := by
  cases e with
  | typePin p =>
    intro c u hc hu hnow
    exact h c u hc hu hnow
  | tick =>
    intro c u hc hu hnow
    simp only [step] at hc hnow ⊢
    split_ifs at hc hnow ⊢ with h1 h2
    · -- countdown reaches zero: would contradict `now + 1 < u`
      exfalso
      have hn : s.now + 1 < u := hnow
      have hub := (h c u hc hu (by omega)).2
      omega
    · -- countdown decrements
      have hn : s.now + 1 < u := hnow
      obtain ⟨hlk, hub⟩ := h c u hc hu (by omega)
      refine ⟨hlk, ?_⟩
      show u - (s.now + 1) ≤ s.lockoutTime - 1
      omega
    · -- no active countdown: contradicts the invariant at `s`
      exfalso
      have hn : s.now + 1 < u := hnow
      obtain ⟨hlk, hub⟩ := h c u hc hu (by omega)
      have hz : ¬ 0 < s.lockoutTime := fun hp => h1 ⟨hlk, hp⟩
      omega
  | setup p =>
    intro c u hc hu hnow
    simp only [step] at hc hnow ⊢
    rcases hsp : s.pinConfig with _ | ⟨c0⟩
    · simp only [hsp] at hc hnow ⊢
      have hcc : some ({ hash := hashPinFn p, attempts := 0, lockoutUntil := none,
                         isFirstTime := false } : PinConfigRec) = some c := hc
      obtain rfl := Option.some.inj hcc
      have hu2 : (none : Option Nat) = some u := hu
      cases hu2
    · simp only [hsp] at hc hnow ⊢
      exact h c u (hsp.trans hc) hu hnow
  | submit =>
    intro c u hc hu hnow
    simp only [step] at hc hnow ⊢
    by_cases hlk : s.isLockedOut = true
    · rw [if_pos hlk] at hc hnow ⊢
      exact h c u hc hu hnow
    · rw [if_neg hlk] at hc hnow ⊢
      rcases hsp : s.pinConfig with _ | ⟨c0⟩
      · simp only [hsp] at hc hnow ⊢
        cases hc
      · simp only [hsp] at hc hnow ⊢
        by_cases hemp : s.currentPin = ""
        · rw [if_pos hemp] at hc hnow ⊢
          exact h c u hc hu hnow
        · rw [if_neg hemp] at hc hnow ⊢
          by_cases hv : verify s.currentPin c0.hash = true
          · rw [if_pos hv] at hc hnow ⊢
            have hcc : some ({ c0 with attempts := 0, lockoutUntil := none } : PinConfigRec)
                = some c := hc
            obtain rfl := Option.some.inj hcc
            have hu2 : (none : Option Nat) = some u := hu
            cases hu2
          · rw [if_neg hv] at hc hnow ⊢
            have hcc : some ({ c0 with
                               attempts := c0.attempts + 1,
                               lockoutUntil :=
                                 if 5 ≤ c0.attempts + 1 then some (s.now + lockoutDurationS)
                                 else none } : PinConfigRec) = some c := hc
            obtain rfl := Option.some.inj hcc
            have hu2 : (if 5 ≤ c0.attempts + 1 then some (s.now + lockoutDurationS) else none)
                = some u := hu
            by_cases h5 : 5 ≤ c0.attempts + 1
            · rw [if_pos h5] at hu2
              have huu : s.now + lockoutDurationS = u := Option.some.inj hu2
              constructor
              · show decide (5 ≤ c0.attempts + 1) = true
                simp [h5]
              · show u - s.now ≤ if 5 ≤ c0.attempts + 1 then lockoutDurationS else s.lockoutTime
                rw [if_pos h5]
                omega
            · rw [if_neg h5] at hu2
              cases hu2
  | close =>
    intro c u hc hu hnow
    simp only [step] at hc hnow ⊢
    rcases hcs : s.currentSession with _ | ⟨sid⟩
    · simp only [hcs] at hc hnow ⊢
      exact h c u hc hu hnow
    · simp only [hcs] at hc hnow ⊢
      exact h c u hc hu hnow

theorem lockoutInv_run (verify : String → String → Bool) (hashPinFn : String → String)
    (evs : List (VaultEvent × String)) (s : VaultState) (h : lockoutInv s) :
    lockoutInv (runVault verify hashPinFn evs s) := by
  induction evs generalizing s with
  | nil => exact h
  | cons ev t ih =>
    exact ih _ (lockoutInv_step verify hashPinFn ev.2 s ev.1 h)

/-- C1: in any state reachable from vault initialization, while the wall
clock is before the stored `lockoutUntil`, a PIN submission is rejected
unconditionally: the resulting state is exactly the current one (no
persisted state — attempt counter, `lockoutUntil`, sessions — is mutated),
and the outcome is identical under every possible PIN verifier, i.e. the
stored hash is never consulted. -/
theorem claim_C1 (verify : String → String → Bool) (hashPinFn : String → String)
    (cfg0 : Option PinConfigRec) (sess0 : List VaultSessionRec) (t0 : Nat)
    (evs : List (VaultEvent × String)) (cfg : PinConfigRec) (u : Nat)
    (hcfg : (runVault verify hashPinFn evs (initVault cfg0 sess0 t0)).pinConfig = some cfg)
    (huntil : cfg.lockoutUntil = some u)
    (hnow : (runVault verify hashPinFn evs (initVault cfg0 sess0 t0)).now < u) :
    ∀ (verify2 : String → String → Bool) (freshId : String),
      step verify2 hashPinFn freshId
          (runVault verify hashPinFn evs (initVault cfg0 sess0 t0)) VaultEvent.submit
        = runVault verify hashPinFn evs (initVault cfg0 sess0 t0) := by
  intro verify2 freshId
  have hinv := lockoutInv_run verify hashPinFn evs (initVault cfg0 sess0 t0)
    (lockoutInv_init cfg0 sess0 t0)
  have hlk := (hinv cfg u hcfg huntil hnow).1
  simp [step, hlk]

/-- C1 witness: stored config locked out until second 100, clock at 0; even
a verifier that accepts everything does not change the state. -/
theorem claim_C1_witness :
    step (fun _ _ => true) (fun _ => "") "sid"
        (runVault (fun _ _ => false) (fun _ => "") [] (initVault (some c1Cfg) [] 0))
        VaultEvent.submit
      = runVault (fun _ _ => false) (fun _ => "") [] (initVault (some c1Cfg) [] 0) :=
  claim_C1 (fun _ _ => false) (fun _ => "") (some c1Cfg) [] 0 [] c1Cfg 100 rfl rfl
    (by decide) (fun _ _ => true) "sid"

/-- C2: a failed PIN submission in the unlocked-form ("Locked") state
increments the persisted attempt counter to `attempts + 1`; if the new
count reaches 5 the persisted `lockoutUntil` becomes `now + 15 minutes`
and the component enters the locked-out display with a 15-minute
countdown, otherwise it stays out of lockout (with `lockoutUntil`
cleared); in every case the reported message is
`Invalid PIN. ${5 - newCount} attempts remaining.` and the typed PIN is
cleared. -/
theorem claim_C2 (verify : String → String → Bool) (hashPinFn : String → String)
    (freshId : String) (s : VaultState) (cfg : PinConfigRec)
    (hlk : s.isLockedOut = false) (hcfg : s.pinConfig = some cfg)
    (hpin : ¬ s.currentPin = "") (hfail : verify s.currentPin cfg.hash = false) :
    (step verify hashPinFn freshId s VaultEvent.submit).pinConfig
      = some { cfg with
               attempts := cfg.attempts + 1,
               lockoutUntil :=
                 if 5 ≤ cfg.attempts + 1 then some (s.now + lockoutDurationS) else none } ∧
    (step verify hashPinFn freshId s VaultEvent.submit).isLockedOut
      = decide (5 ≤ cfg.attempts + 1) ∧
    (step verify hashPinFn freshId s VaultEvent.submit).lockoutTime
      = (if 5 ≤ cfg.attempts + 1 then lockoutDurationS else s.lockoutTime) ∧
    (step verify hashPinFn freshId s VaultEvent.submit).errorMsg
      = invalidPinMsg (cfg.attempts + 1) ∧
    (step verify hashPinFn freshId s VaultEvent.submit).attemptsShown = cfg.attempts + 1 ∧
    (step verify hashPinFn freshId s VaultEvent.submit).currentPin = "" := by
  simp only [step, hcfg, hlk]
  rw [if_neg (by simp), if_neg hpin, if_neg (by simp [hfail])]
  exact ⟨rfl, rfl, rfl, rfl, rfl, rfl⟩

/-- C2 witness: two prior failures, wrong PIN `"9999"`; the counter becomes
3, no lockout is triggered, and `2 attempts remaining` is reported. -/
theorem claim_C2_witness :
    (step (fun _ _ => false) (fun _ => "") "sid" c2State VaultEvent.submit).pinConfig
      = some { c2Cfg with
               attempts := c2Cfg.attempts + 1,
               lockoutUntil :=
                 if 5 ≤ c2Cfg.attempts + 1 then some (c2State.now + lockoutDurationS)
                 else none } ∧
    (step (fun _ _ => false) (fun _ => "") "sid" c2State VaultEvent.submit).isLockedOut
      = decide (5 ≤ c2Cfg.attempts + 1) ∧
    (step (fun _ _ => false) (fun _ => "") "sid" c2State VaultEvent.submit).lockoutTime
      = (if 5 ≤ c2Cfg.attempts + 1 then lockoutDurationS else c2State.lockoutTime) ∧
    (step (fun _ _ => false) (fun _ => "") "sid" c2State VaultEvent.submit).errorMsg
      = invalidPinMsg (c2Cfg.attempts + 1) ∧
    (step (fun _ _ => false) (fun _ => "") "sid" c2State VaultEvent.submit).attemptsShown
      = c2Cfg.attempts + 1 ∧
    (step (fun _ _ => false) (fun _ => "") "sid" c2State VaultEvent.submit).currentPin = "" :=
  claim_C2 (fun _ _ => false) (fun _ => "") "sid" c2State c2Cfg rfl rfl (by decide) rfl

/-- C3: across every operation, (a) the persisted attempt counter never
decreases except to 0, and a reset to 0 is justified only by a PIN
submission that verifies successfully or by initial PIN setup; (b) the
lockout countdown (`tick`) never touches the persisted `PinConfig`, so
lockout expiry leaves the counter at the value that triggered the lockout;
(c) from an expired lockout (counter at least 5, locked-out display over),
the next wrong submission immediately re-enters lockout with a fresh
`lockoutUntil = now + 15 minutes`. -/
theorem claim_C3 :
    (∀ (verify : String → String → Bool) (hashPinFn : String → String)
        (freshId : String) (s : VaultState) (e : VaultEvent),
      attemptsOf s ≤ attemptsOf (step verify hashPinFn freshId s e) ∨
      (attemptsOf (step verify hashPinFn freshId s e) = 0 ∧ resetJustified verify s e)) ∧
    (∀ (verify : String → String → Bool) (hashPinFn : String → String)
        (freshId : String) (s : VaultState),
      (step verify hashPinFn freshId s VaultEvent.tick).pinConfig = s.pinConfig) ∧
    (∀ (verify : String → String → Bool) (hashPinFn : String → String)
        (freshId : String) (s : VaultState) (cfg : PinConfigRec),
      s.isLockedOut = false → s.pinConfig = some cfg → 5 ≤ cfg.attempts →
      ¬ s.currentPin = "" → verify s.currentPin cfg.hash = false →
      (step verify hashPinFn freshId s VaultEvent.submit).isLockedOut = true ∧
      (step verify hashPinFn freshId s VaultEvent.submit).pinConfig
        = some { cfg with
                 attempts := cfg.attempts + 1,
                 lockoutUntil := some (s.now + lockoutDurationS) }) := by
  refine ⟨?_, ?_, ?_⟩
  · intro verify hashPinFn freshId s e
    cases e with
    | typePin p => exact Or.inl (Nat.le_refl _)
    | tick =>
      left
      simp only [step]
      split_ifs <;> exact Nat.le_refl _
    | setup p =>
      rcases hsp : s.pinConfig with _ | ⟨c0⟩
      · left
        simp only [step, attemptsOf, hsp]
        exact Nat.le_refl _
      · left
        simp only [step, attemptsOf, hsp]
        exact Nat.le_refl _
    | submit =>
      by_cases hlk : s.isLockedOut = true
      · left
        simp only [step, if_pos hlk]
        exact Nat.le_refl _
      · rcases hsp : s.pinConfig with _ | ⟨c0⟩
        · left
          simp only [step, if_neg hlk, hsp]
          exact Nat.le_refl _
        · by_cases hemp : s.currentPin = ""
          · left
            simp only [step, if_neg hlk, hsp, if_pos hemp]
            exact Nat.le_refl _
          · by_cases hv : verify s.currentPin c0.hash = true
            · right
              constructor
              · simp only [step, if_neg hlk, hsp, if_neg hemp, if_pos hv]
                rfl
              · exact Or.inl ⟨rfl, c0, hsp, hv⟩
            · left
              simp only [step, if_neg hlk, hsp, if_neg hemp, if_neg hv, attemptsOf]
              omega
    | close =>
      left
      rcases hcs : s.currentSession with _ | ⟨sid⟩
      · simp only [step, attemptsOf, hcs]
        exact Nat.le_refl _
      · simp only [step, attemptsOf, hcs]
        exact Nat.le_refl _
  · intro verify hashPinFn freshId s
    simp only [step]
    split_ifs <;> rfl
  · intro verify hashPinFn freshId s cfg hlk hcfg h5 hpin hfail
    have h5s : 5 ≤ cfg.attempts + 1 := by omega
    simp only [step, hcfg, hlk]
    rw [if_neg (by simp), if_neg hpin, if_neg (by simp [hfail])]
    refine ⟨by simp [h5s], ?_⟩
    rw [if_pos h5s]

/-- C3 witness: lockout expired with the counter still at 5; one wrong
submission immediately re-enters lockout for another 15 minutes. -/
theorem claim_C3_witness :
    (step (fun _ _ => false) (fun _ => "") "sid" c3State VaultEvent.submit).isLockedOut
      = true ∧
    (step (fun _ _ => false) (fun _ => "") "sid" c3State VaultEvent.submit).pinConfig
      = some { c3Cfg with
               attempts := c3Cfg.attempts + 1,
               lockoutUntil := some (c3State.now + lockoutDurationS) } :=
  claim_C3.2.2 (fun _ _ => false) (fun _ => "") "sid" c3State c3Cfg rfl rfl
    (by decide) (by decide) rfl

/-- C10 witness: a one-session store, ending the existing session. -/
theorem claim_C10_witness :
    endSession c10Sessions "sid1" =
      Except.ok (c10Sessions.map
        (fun s => if s.id == "sid1" then { s with isActive := false } else s)) ∧
    (∀ s ∈ c10Sessions,
      ∃ t ∈ c10Sessions.map
          (fun s => if s.id == "sid1" then { s with isActive := false } else s),
        t.id = s.id ∧ t.startTime = s.startTime ∧ t.lastActivity = s.lastActivity ∧
        (t.isActive = s.isActive ∨ (t.id = "sid1" ∧ t.isActive = false))) ∧
    (c10Sessions.map
        (fun s => if s.id == "sid1" then { s with isActive := false } else s)).length
      = c10Sessions.length :=
  claim_C10 c10Sessions "sid1" (by decide)

end VaultCore
